import Mathlib

/-!
Shallow embedding of `prepare_keyword_split_csv` from `src/utils.py` of the
dify-chat-app repository, together with proofs of the specification claims
about it.

The Python function takes a list of message dicts (keys `role`, `name`,
`content`, each read with `.get(key, "")`), splits the content of messages
whose role is `"assistant"` into non-empty stripped lines, caps that list at
`max_keywords` (annotating the last kept entry when truncation happened),
builds a rectangular table with pandas, serializes it to CSV and encodes the
text as UTF-8 with a byte-order mark (`utf-8-sig`).

Modelling notes, all from the source and the behaviour of the libraries it
calls on the inputs it builds:
* `str.splitlines` is modelled over the Unicode line-boundary characters
  Python uses (including the `"\r\n"` digraph as a single boundary, and no
  trailing empty line for a trailing terminator).
* `str.strip()` is modelled as dropping leading/trailing characters from
  Python's whitespace set.
* `pd.DataFrame(out_rows)` infers its columns from the dict keys in order of
  first appearance; every row dict here has the same keys
  `role, name, content, keyword_1 .. keyword_W`, and an empty list of rows
  gives a DataFrame with no columns at all.
* `DataFrame.to_csv(index=False)` writes the header row then one line per
  row, fields joined by `","`, minimal CSV quoting (a field is quoted iff it
  contains `","`, a double quote, `"\n"` or `"\r"`, internal quotes doubled),
  each line ended by the platform line separator, modelled as `"\n"` (POSIX).
* `"utf-8-sig"` encoding is the three BOM bytes `EF BB BF` followed by the
  UTF-8 encoding of the text; bytes are modelled as `Nat`.
-/

namespace KeywordCsv

/-- Code points Python's `str.splitlines` treats as line boundaries:
LF, VT, FF, CR, FS, GS, RS, NEL, LINE SEPARATOR, PARAGRAPH SEPARATOR. -/
def lineBoundaryCodes : List Nat :=
  [0x0A, 0x0B, 0x0C, 0x0D, 0x1C, 0x1D, 0x1E, 0x85, 0x2028, 0x2029]

def isLineBoundary (c : Char) : Bool :=
  lineBoundaryCodes.contains c.toNat

/-- Code points Python's `str.strip()` removes (the `str.isspace` set):
ASCII whitespace, the C1/Unicode space and separator characters. -/
def pySpaceCodes : List Nat :=
  [0x09, 0x0A, 0x0B, 0x0C, 0x0D, 0x1C, 0x1D, 0x1E, 0x1F, 0x20, 0x85, 0xA0,
   0x1680, 0x2000, 0x2001, 0x2002, 0x2003, 0x2004, 0x2005, 0x2006, 0x2007,
   0x2008, 0x2009, 0x200A, 0x2028, 0x2029, 0x202F, 0x205F, 0x3000]

def isPySpace (c : Char) : Bool :=
  pySpaceCodes.contains c.toNat

/-- `str.splitlines`, worker: `acc` holds the current line, reversed.
A `"\r\n"` pair is one boundary; a terminator at the very end of the string
does not open a final empty line (Python: `"a\n".splitlines() == ["a"]`). -/
def pySplitlinesGo : List Char → List Char → List String
  | [], acc => [String.mk acc.reverse]
  | '\r' :: '\n' :: rest, acc =>
      String.mk acc.reverse ::
        (if rest.isEmpty then [] else pySplitlinesGo rest [])
  | c :: rest, acc =>
      if isLineBoundary c then
        String.mk acc.reverse ::
          (if rest.isEmpty then [] else pySplitlinesGo rest [])
      else
        pySplitlinesGo rest (c :: acc)

/-- Python `str.splitlines` (`"".splitlines() == []`). -/
def pySplitlines (s : String) : List String :=
  if s.data.isEmpty then [] else pySplitlinesGo s.data []

/-- Python `str.strip()`: drop leading and trailing whitespace. -/
def pyStrip (s : String) : String :=
  String.mk (((s.data.dropWhile isPySpace).reverse.dropWhile isPySpace).reverse)

/-- An input message dict: each key read via `m.get(key, "")`, so an absent
key (`none`) defaults to the empty string. -/
structure Msg where
  role : Option String
  name : Option String
  content : Option String
deriving DecidableEq

/-- One normalized row before padding: the three copied fields plus the
`_kws` list the Python loop stores alongside them. -/
structure KwRow where
  role : String
  name : String
  content : String
  kws : List String
deriving DecidableEq

/-- The literal suffix of the f-string
`f"{kws[-1]} (...+{remaining} truncated)"`. -/
def truncSuffix (remaining : Nat) : String :=
  " (...+" ++ toString remaining ++ " truncated)"

/-- `[k.strip() for k in str(content).splitlines() if k.strip()]`. -/
def candidateKws (content : String) : List String :=
  ((pySplitlines content).map pyStrip).filter (fun k => k != "")

/-- `if kws: kws[-1] = f"{kws[-1]} (...+{remaining} truncated)"`:
append the suffix to the last element, if any. -/
def annotateLast (remaining : Nat) : List String → List String
  | [] => []
  | [k] => [k ++ truncSuffix remaining]
  | k :: k2 :: rest => k :: annotateLast remaining (k2 :: rest)

/-- The capping branch: `if len(kws) > max_keywords:` keep the first
`max_keywords` entries and annotate the last kept one with the number of
dropped entries. -/
def capKws (maxKeywords : Nat) (kws : List String) : List String :=
  if maxKeywords < kws.length then
    annotateLast (kws.length - maxKeywords) (kws.take maxKeywords)
  else kws

/-- One iteration of the first loop of `prepare_keyword_split_csv`: read the
fields with empty-string defaults and compute the `_kws` list (assistant
messages only). -/
def mkRow (maxKeywords : Nat) (m : Msg) : KwRow :=
  let role := m.role.getD ""
  let name := m.name.getD ""
  let content := m.content.getD ""
  let kws :=
    if role = "assistant" then capKws maxKeywords (candidateKws content)
    else []
  ⟨role, name, content, kws⟩

/-- The running maximum `max_kw` after the first loop: the largest `_kws`
length over all rows (0 when there are none). -/
def maxKw (rows : List KwRow) : Nat :=
  rows.foldl (fun acc r => max acc r.kws.length) 0

/-- The cells of one output row dict, in key order:
`role, name, content, keyword_1 .. keyword_w`, where `keyword_{i+1}` is
`r["_kws"][i] if i < len(r["_kws"]) else ""`. -/
def outCells (w : Nat) (r : KwRow) : List String :=
  [r.role, r.name, r.content] ++ (List.range w).map (fun i => r.kws.getD i "")

/-- The header cells `pd.DataFrame` infers for a non-empty `out_rows`:
the shared dict keys in order of first appearance. -/
def headerCells (w : Nat) : List String :=
  ["role", "name", "content"] ++
    (List.range w).map (fun i => "keyword_" ++ toString (i + 1))

/-- The rectangular table `pd.DataFrame(out_rows)` holds: header cells and
data-row cells.  An empty `out_rows` gives a DataFrame with no columns. -/
def table (messages : List Msg) (maxKeywords : Nat) :
    List String × List (List String) :=
  let rows := messages.map (mkRow maxKeywords)
  match rows with
  | [] => ([], [])
  | _ => (headerCells (maxKw rows), rows.map (outCells (maxKw rows)))

/-- Minimal CSV quoting: a field is quoted iff it contains the delimiter, the
quote character, or a line-terminator character. -/
def needsQuote (s : String) : Bool :=
  s.data.any (fun c => c == ',' || c == '"' || c == '\n' || c == '\r')

def escapeQuotes : List Char → List Char
  | [] => []
  | c :: rest =>
      if c = '"' then '"' :: '"' :: escapeQuotes rest
      else c :: escapeQuotes rest

def csvField (s : String) : String :=
  if needsQuote s then "\"" ++ String.mk (escapeQuotes s.data) ++ "\"" else s

def csvLine (cells : List String) : String :=
  String.intercalate "," (cells.map csvField)

/-- `DataFrame.to_csv(index=False)`: the header line, then one line per data
row, each ended by `"\n"`. -/
def csvText (header : List String) (rows : List (List String)) : String :=
  csvLine header ++ "\n" ++ String.join (rows.map (fun r => csvLine r ++ "\n"))

/-- UTF-8 encoding of one scalar value, as byte values. -/
def utf8EncodeChar (c : Char) : List Nat :=
  let n := c.toNat
  if n < 0x80 then [n]
  else if n < 0x800 then [0xC0 + n / 64, 0x80 + n % 64]
  else if n < 0x10000 then
    [0xE0 + n / 4096, 0x80 + n / 64 % 64, 0x80 + n % 64]
  else
    [0xF0 + n / 262144, 0x80 + n / 4096 % 64, 0x80 + n / 64 % 64,
     0x80 + n % 64]

def utf8Encode (s : String) : List Nat :=
  (s.data.map utf8EncodeChar).flatten

/-- Python `text.encode("utf-8-sig")`: the BOM bytes then the UTF-8 bytes. -/
def utf8sig (s : String) : List Nat :=
  0xEF :: 0xBB :: 0xBF :: utf8Encode s

/-- The whole of `prepare_keyword_split_csv(messages, max_keywords)` (the
source defaults `max_keywords` to 100): build the rows, assemble the table,
serialize to CSV and encode as `utf-8-sig` bytes. -/
def prepare_keyword_split_csv (messages : List Msg) (maxKeywords : Nat) :
    List Nat :=
  let t := table messages maxKeywords
  utf8sig (csvText t.1 t.2)

/-- Sample messages used by concrete witnesses (from the repository's test
`test_prepare_keyword_split_csv_basic`). -/
def msgU : Msg := ⟨some "user", some "U", some "hello"⟩

def msgA : Msg := ⟨some "assistant", some "Bot", some "kw1\nkw2\nkw3"⟩

/-- A non-assistant message with multi-line content, for witnesses. -/
def msgMulti : Msg := ⟨some "user", some "U", some "a\nb\nc"⟩

/-! ### Helper lemmas -/

theorem str_append_assoc (a b c : String) : a ++ b ++ c = a ++ (b ++ c) := by
  simp [String.append_assoc]

theorem annotateLast_concat (r : Nat) (l : List String) (a : String) :
    annotateLast r (l ++ [a]) = l ++ [a ++ truncSuffix r] := by
  induction l with
  | nil => rfl
  | cons c l ih =>
    cases l with
    | nil => rfl
    | cons d l' =>
      show c :: annotateLast r ((d :: l') ++ [a]) =
        c :: ((d :: l') ++ [a ++ truncSuffix r])
      rw [ih]

theorem annotateLast_length (r : Nat) (l : List String) :
    (annotateLast r l).length = l.length := by
  induction l with
  | nil => rfl
  | cons c l ih =>
    cases l with
    | nil => rfl
    | cons d l' =>
      simp only [annotateLast, List.length_cons] at ih ⊢
      omega

theorem capKws_length_le (mk : Nat) (kws : List String) :
    (capKws mk kws).length ≤ mk := by
  by_cases h : mk < kws.length
  · simp only [capKws, if_pos h, annotateLast_length, List.length_take]
    omega
  · simp only [capKws, if_neg h]
    omega

theorem capKws_zero (kws : List String) : capKws 0 kws = [] := by
  by_cases h : 0 < kws.length
  · simp [capKws, h, annotateLast]
  · have : kws = [] := List.eq_nil_of_length_eq_zero (by omega)
    simp [this, capKws]

theorem mkRow_kws_length_le (mk : Nat) (m : Msg) :
    (mkRow mk m).kws.length ≤ mk := by
  by_cases h : m.role.getD "" = "assistant"
  · simp only [mkRow, if_pos h]
    exact capKws_length_le _ _
  · simp only [mkRow, if_neg h]
    exact Nat.zero_le _

theorem foldl_max_le (rows : List KwRow) (init mk : Nat)
    (hinit : init ≤ mk) (h : ∀ r ∈ rows, r.kws.length ≤ mk) :
    rows.foldl (fun acc r => max acc r.kws.length) init ≤ mk := by
  induction rows generalizing init with
  | nil => exact hinit
  | cons r rows ih =>
    exact ih _ (max_le hinit (h r (by simp)))
      (fun r2 hr2 => h r2 (by simp [hr2]))

theorem le_foldl_max (rows : List KwRow) (init : Nat) :
    init ≤ rows.foldl (fun acc r => max acc r.kws.length) init := by
  induction rows generalizing init with
  | nil => exact Nat.le_refl _
  | cons r rows ih => exact Nat.le_trans (Nat.le_max_left _ _) (ih _)

theorem length_le_foldl_max (rows : List KwRow) (r : KwRow) (hr : r ∈ rows)
    (init : Nat) :
    r.kws.length ≤ rows.foldl (fun acc r2 => max acc r2.kws.length) init := by
  induction rows generalizing init with
  | nil => cases hr
  | cons r2 rows ih =>
    rcases List.mem_cons.mp hr with h | h
    · subst h
      exact Nat.le_trans (Nat.le_max_right _ _) (le_foldl_max _ _)
    · exact ih h _

theorem length_le_maxKw (rows : List KwRow) (r : KwRow) (hr : r ∈ rows) :
    r.kws.length ≤ maxKw rows :=
  length_le_foldl_max rows r hr 0

theorem range_map_getD (w : Nat) (l : List String) :
    (List.range w).map (fun i => l.getD i "") =
      l.take w ++ List.replicate (w - l.length) "" := by
  induction l generalizing w with
  | nil => simp [List.getD]
  | cons a l ih =>
    cases w with
    | zero => simp
    | succ w =>
      have hsub : w + 1 - (a :: l).length = w - l.length := by
        simp only [List.length_cons]
        omega
      rw [hsub, List.range_succ_eq_map, List.map_cons, List.map_map]
      simp only [Function.comp_def, Nat.succ_eq_add_one, List.getD_cons_zero,
        List.getD_cons_succ, List.take_succ_cons, List.cons_append]
      rw [ih]

theorem outCells_drop3 (w : Nat) (r : KwRow) :
    (outCells w r).drop 3 =
      r.kws.take w ++ List.replicate (w - r.kws.length) "" := by
  have h3 : ([r.role, r.name, r.content] : List String).length = 3 := rfl
  rw [outCells, ← h3, List.drop_left, range_map_getD]

theorem filter_ne_replicate_empty (n : Nat) :
    (List.replicate n "").filter (fun c => c != "") = [] := by
  induction n with
  | zero => rfl
  | succ n ih =>
    rw [List.replicate_succ, List.filter_cons_of_neg (by decide), ih]

theorem outCells_eq_of_le (w : Nat) (r : KwRow) (hle : r.kws.length ≤ w) :
    outCells w r =
      [r.role, r.name, r.content] ++
        (r.kws ++ List.replicate (w - r.kws.length) "") := by
  rw [outCells, range_map_getD, List.take_of_length_le hle]

/-! ### Claim theorems -/

/-- Claim C1: for a message whose role is `"assistant"` and whose content
yields `L` non-empty trimmed lines with `L > max_keywords ≥ 1`, the row keeps
exactly the first `max_keywords` lines, and the last kept entry is the
original line text followed by the literal suffix `" (...+N truncated)"`
where `N = L - max_keywords`. -/
theorem C1_truncation (m : Msg) (mk : Nat) (hmk : 1 ≤ mk)
    (hrole : m.role.getD "" = "assistant")
    (hL : mk < (candidateKws (m.content.getD "")).length) :
    (mkRow mk m).kws =
      (candidateKws (m.content.getD "")).take (mk - 1) ++
        [(candidateKws (m.content.getD "")).get ⟨mk - 1, by omega⟩ ++
          (" (...+" ++
            toString ((candidateKws (m.content.getD "")).length - mk) ++
            " truncated)")] := by
  have h1 : (mkRow mk m).kws = capKws mk (candidateKws (m.content.getD "")) := by
    simp [mkRow, hrole]
  rw [h1, capKws, if_pos hL]
  have hlt : mk - 1 < (candidateKws (m.content.getD "")).length := by omega
  have htake : (candidateKws (m.content.getD "")).take mk =
      (candidateKws (m.content.getD "")).take (mk - 1) ++
        [(candidateKws (m.content.getD "")).get ⟨mk - 1, hlt⟩] := by
    have hmk1 : mk - 1 + 1 = mk := by omega
    have hconcat := List.take_concat_get (candidateKws (m.content.getD ""))
      (mk - 1) hlt
    rw [hmk1, List.concat_eq_append] at hconcat
    rw [← hconcat]
    simp [List.get_eq_getElem]
  rw [htake, annotateLast_concat]
  simp [truncSuffix]

/-- Concrete instance of C1: `msgA` has three candidate lines and a ceiling
of 2 keeps `kw1` and rewrites the second kept line to
`"kw2 (...+1 truncated)"`. -/
theorem C1_truncation_witness :
    1 ≤ 2 ∧ msgA.role.getD "" = "assistant" ∧
      2 < (candidateKws (msgA.content.getD "")).length ∧
      (mkRow 2 msgA).kws =
        (candidateKws (msgA.content.getD "")).take 1 ++
          [(candidateKws (msgA.content.getD "")).get ⟨1, by decide⟩ ++
            (" (...+" ++
              toString ((candidateKws (msgA.content.getD "")).length - 2) ++
              " truncated)")] :=
  ⟨by decide, by decide, by decide,
    C1_truncation msgA 2 (by decide) (by decide) (by decide)⟩

/-- Claim C2: with `max_keywords ≥ 1`, every row's capped keyword list has
length at most `max_keywords`; equivalently, each output row carries at most
`max_keywords` non-empty keyword cells. -/
theorem C2_row_bound (messages : List Msg) (mk : Nat) (_hmk : 1 ≤ mk)
    (r : KwRow) (hr : r ∈ messages.map (mkRow mk)) :
    r.kws.length ≤ mk ∧
      (((outCells (maxKw (messages.map (mkRow mk))) r).drop 3).filter
          (fun c => c != "")).length ≤ mk := by
  obtain ⟨m, hm, rfl⟩ := List.mem_map.mp hr
  refine ⟨mkRow_kws_length_le _ _, ?_⟩
  rw [outCells_drop3, List.filter_append, List.length_append,
    filter_ne_replicate_empty]
  have h1 := List.length_filter_le (fun c => c != "")
    ((mkRow mk m).kws.take (maxKw (messages.map (mkRow mk))))
  have h2 : ((mkRow mk m).kws.take
      (maxKw (messages.map (mkRow mk)))).length ≤ (mkRow mk m).kws.length := by
    rw [List.length_take]
    exact Nat.min_le_right _ _
  have h3 := mkRow_kws_length_le mk m
  simp only [List.length_nil]
  omega

/-- Concrete instance of C2 on the two-message example with ceiling 10. -/
theorem C2_row_bound_witness :
    1 ≤ 10 ∧ mkRow 10 msgA ∈ [msgU, msgA].map (mkRow 10) ∧
      ((mkRow 10 msgA).kws.length ≤ 10 ∧
        (((outCells (maxKw ([msgU, msgA].map (mkRow 10)))
              (mkRow 10 msgA)).drop 3).filter
            (fun c => c != "")).length ≤ 10) :=
  ⟨by decide, by decide,
    C2_row_bound [msgU, msgA] 10 (by decide) (mkRow 10 msgA) (by decide)⟩

/-- Claim C3: a message whose role is not `"assistant"` gets an empty keyword
list, and all its keyword cells (whatever the table width `w`) are the empty
string, regardless of how many lines its content has. -/
theorem C3_nonreply (mk w : Nat) (m : Msg) (h : m.role.getD "" ≠ "assistant") :
    (mkRow mk m).kws = [] ∧
      (outCells w (mkRow mk m)).drop 3 = List.replicate w "" := by
  have hk : (mkRow mk m).kws = [] := by simp [mkRow, h]
  refine ⟨hk, ?_⟩
  rw [outCells_drop3, hk]
  simp

/-- Concrete instance of C3: a user message with three content lines still
has only empty keyword cells. -/
theorem C3_nonreply_witness :
    msgMulti.role.getD "" ≠ "assistant" ∧
      ((mkRow 5 msgMulti).kws = [] ∧
        (outCells 4 (mkRow 5 msgMulti)).drop 3 = List.replicate 4 "") :=
  ⟨by decide, C3_nonreply 5 4 msgMulti (by decide)⟩

/-- Claim C4: the table has exactly one data row per input message, and the
rows appear in input order (row i is built from message i). -/
theorem C4_row_count (messages : List Msg) (mk : Nat) :
    (table messages mk).2.length = messages.length ∧
      (table messages mk).2 =
        messages.map
          (fun m => outCells (maxKw (messages.map (mkRow mk))) (mkRow mk m)) := by
  cases messages with
  | nil => exact ⟨rfl, rfl⟩
  | cons m ms =>
    refine ⟨?_, ?_⟩
    · simp [table]
    · simp [table, List.map_map, Function.comp_def]

/-- Claim C5 counterexample: on the empty message list (with the source's
default ceiling 100) the output is the BOM followed by a single newline —
`pd.DataFrame([])` has no columns — and not the BOM plus the claimed
`role,name,content` header line. -/
theorem C5_counterexample :
    prepare_keyword_split_csv [] 100 = utf8sig "\n" ∧
      utf8sig "\n" ≠ utf8sig ("role,name,content" ++ "\n") :=
  ⟨rfl, by decide⟩

/-- Claim C5 amended: on the empty message list the table has no columns and
no rows, and the returned bytes are the BOM followed by the UTF-8 encoding of
a single newline (an empty header line, zero data rows). -/
theorem C5_empty_output (mk : Nat) :
    table [] mk = ([], []) ∧ prepare_keyword_split_csv [] mk = utf8sig "\n" :=
  ⟨rfl, rfl⟩

/-- Claim C6 counterexample: on the empty input the maximum keyword-list
width is `W = 0`, yet the header does not consist of the three columns
`role, name, content` — it is empty. -/
theorem C6_counterexample :
    maxKw (([] : List Msg).map (mkRow 5)) = 0 ∧
      (table ([] : List Msg) 5).1 ≠ ["role", "name", "content"] :=
  ⟨rfl, by decide⟩

/-- Claim C6 amended: for every NON-EMPTY input, with `W` the maximum capped
keyword-list length, the header is exactly
`role, name, content, keyword_1 .. keyword_W` in that order, and each data
row is its three copied fields followed by its own keywords padded with empty
strings up to width `W`.  (On the empty input the table has no columns at
all, even though `W = 0`.) -/
theorem C6_columns (messages : List Msg) (mk : Nat) (hne : messages ≠ []) :
    (table messages mk).1 =
      ["role", "name", "content"] ++
        (List.range (maxKw (messages.map (mkRow mk)))).map
          (fun i => "keyword_" ++ toString (i + 1)) ∧
      (table messages mk).2 =
        (messages.map (mkRow mk)).map
          (fun r => [r.role, r.name, r.content] ++
            (r.kws ++
              List.replicate (maxKw (messages.map (mkRow mk)) - r.kws.length)
                "")) := by
  obtain ⟨m, ms, rfl⟩ : ∃ m ms, messages = m :: ms := by
    cases messages with
    | nil => cases hne rfl
    | cons m ms => exact ⟨m, ms, rfl⟩
  constructor
  · simp [table, headerCells]
  · have htab : (table (m :: ms) mk).2 =
        ((m :: ms).map (mkRow mk)).map
          (outCells (maxKw ((m :: ms).map (mkRow mk)))) := by
      simp [table]
    rw [htab]
    exact List.map_congr_left
      (fun r hr => outCells_eq_of_le _ r (length_le_maxKw _ _ hr))

/-- Concrete instance of amended C6 on the two-message example. -/
theorem C6_columns_witness :
    ([msgU, msgA] : List Msg) ≠ [] ∧
      ((table [msgU, msgA] 10).1 =
        ["role", "name", "content"] ++
          (List.range (maxKw ([msgU, msgA].map (mkRow 10)))).map
            (fun i => "keyword_" ++ toString (i + 1)) ∧
      (table [msgU, msgA] 10).2 =
        ([msgU, msgA].map (mkRow 10)).map
          (fun r => [r.role, r.name, r.content] ++
            (r.kws ++
              List.replicate
                (maxKw ([msgU, msgA].map (mkRow 10)) - r.kws.length) ""))) :=
  ⟨by decide, C6_columns [msgU, msgA] 10 (by decide)⟩

/-- Claim C7: for every input, the returned byte buffer begins with the
byte-order mark `EF BB BF` (UTF-8 with BOM, Python `utf-8-sig`). -/
theorem C7_bom (messages : List Msg) (mk : Nat) :
    (prepare_keyword_split_csv messages mk).take 3 = [0xEF, 0xBB, 0xBF] :=
  rfl

/-- Claim C8: the transform is deterministic — two calls with identical
messages and identical ceilings return byte-identical output. -/
theorem C8_deterministic (msgs1 msgs2 : List Msg) (mk1 mk2 : Nat)
    (h1 : msgs1 = msgs2) (h2 : mk1 = mk2) :
    prepare_keyword_split_csv msgs1 mk1 = prepare_keyword_split_csv msgs2 mk2 := by
  rw [h1, h2]

/-- Concrete instance of C8 on the two-message example with ceiling 10. -/
theorem C8_deterministic_witness :
    prepare_keyword_split_csv [msgU, msgA] 10 =
      prepare_keyword_split_csv [msgU, msgA] 10 :=
  C8_deterministic [msgU, msgA] [msgU, msgA] 10 10 rfl rfl

/-- Claim C9 counterexample: with `max_keywords = 0` and the empty message
list, the output does not have the three columns `role, name, content`: the
header is empty. -/
theorem C9_counterexample :
    (table ([] : List Msg) 0).1 = [] ∧
      (table ([] : List Msg) 0).1 ≠ ["role", "name", "content"] :=
  ⟨rfl, by decide⟩

/-- Claim C9 amended: with `max_keywords = 0`, every row's keyword list
(assistant or not) is empty — so no truncation annotation appears anywhere —
and for every NON-EMPTY message list the output has exactly the three
columns `role, name, content` (the empty list yields no columns at all). -/
theorem C9_zero_cap (messages : List Msg) (hne : messages ≠ []) :
    messages.map (fun m => (mkRow 0 m).kws) =
      List.replicate messages.length [] ∧
      (table messages 0).1 = ["role", "name", "content"] := by
  have hzero : ∀ m : Msg, (mkRow 0 m).kws = [] := by
    intro m
    by_cases h : m.role.getD "" = "assistant"
    · simp [mkRow, h, capKws_zero]
    · simp [mkRow, h]
  constructor
  · refine List.eq_replicate_iff.mpr ⟨by simp, ?_⟩
    intro b hb
    obtain ⟨m, hm, rfl⟩ := List.mem_map.mp hb
    exact hzero m
  · obtain ⟨m, ms, rfl⟩ : ∃ m ms, messages = m :: ms := by
      cases messages with
      | nil => cases hne rfl
      | cons m ms => exact ⟨m, ms, rfl⟩
    have hle : maxKw ((m :: ms).map (mkRow 0)) ≤ 0 := by
      apply foldl_max_le _ _ _ (Nat.le_refl 0)
      intro r hr
      obtain ⟨m2, hm2, rfl⟩ := List.mem_map.mp hr
      simp [hzero m2]
    have hw0 : maxKw (mkRow 0 m :: ms.map (mkRow 0)) = 0 := by
      rw [List.map_cons] at hle
      omega
    simp [table, headerCells, hw0]

/-- Concrete instance of amended C9: ceiling 0 on the two-message example. -/
theorem C9_zero_cap_witness :
    ([msgU, msgA] : List Msg) ≠ [] ∧
      ([msgU, msgA].map (fun m => (mkRow 0 m).kws) =
        List.replicate ([msgU, msgA] : List Msg).length [] ∧
      (table [msgU, msgA] 0).1 = ["role", "name", "content"]) :=
  ⟨by decide, C9_zero_cap [msgU, msgA] (by decide)⟩

/-- Claim C10: for every input and every ceiling, the keyword width of the
table is at most `max_keywords`, so the column count is at most
`3 + max_keywords`. -/
theorem C10_width_bound (messages : List Msg) (mk : Nat) :
    maxKw (messages.map (mkRow mk)) ≤ mk ∧
      (table messages mk).1.length ≤ 3 + mk := by
  have hw : maxKw (messages.map (mkRow mk)) ≤ mk := by
    apply foldl_max_le _ _ _ (Nat.zero_le _)
    intro r hr
    obtain ⟨m, hm, rfl⟩ := List.mem_map.mp hr
    exact mkRow_kws_length_le _ _
  refine ⟨hw, ?_⟩
  cases messages with
  | nil => simp [table]
  | cons m ms =>
    have htab : (table (m :: ms) mk).1 =
        headerCells (maxKw ((m :: ms).map (mkRow mk))) := by
      simp [table]
    rw [htab, headerCells]
    simp only [List.length_append, List.length_map, List.length_range,
      List.length_cons, List.length_nil]
    omega

end KeywordCsv
